import Mathlib

/- Verification of the uPose skeletal-tracking core.

   Shallow embedding conventions:
   - OpenCV integer points (cv Point) are pairs of ℤ.
   - C++ doubles are modelled as exact real numbers; the C++ narrowing
     conversion double → int is `cppTrunc` (truncation toward zero).
   - C++ integer division (truncation toward zero) is `Int.tdiv`.
   - The -1 "no candidate" index of the assignment loop is `Option.none`.
   - External OpenCV collaborators (findContours, boundingRect, norm,
     minMaxLoc, moments) are embedded by their documented behaviour on the
     data the tracker feeds them. -/

namespace UPose

/-- A 2D integer point, as cv Point. -/
structure Point where
  x : ℤ
  y : ℤ
deriving DecidableEq

instance : Inhabited Point := ⟨⟨0, 0⟩⟩

instance : Sub Point := ⟨fun a b => ⟨a.x - b.x, a.y - b.y⟩⟩

@[simp] theorem Point.sub_def (a b : Point) : a - b = ⟨a.x - b.x, a.y - b.y⟩ := rfl

/-- Euclidean norm of an integer point (cv norm), as an exact real. -/
noncomputable def cvNorm (p : Point) : ℝ := Real.sqrt ((p.x : ℝ) ^ 2 + (p.y : ℝ) ^ 2)

/-- C++ conversion double → int: truncation toward zero. -/
noncomputable def cppTrunc (x : ℝ) : ℤ := if 0 ≤ x then ⌊x⌋ else ⌈x⌉

/-- cvRound of s/2 (round-half-to-even), the effect of the cv Point expression
    (tl + br) * 0.5 on each integer coordinate sum s. -/
def halfRoundEven (s : ℤ) : ℤ :=
  if s % 2 = 0 then s / 2 else if (s / 2) % 2 = 0 then s / 2 else s / 2 + 1

/-- An up-right rectangle, as cv Rect. -/
structure Rect where
  x : ℤ
  y : ℤ
  width : ℤ
  height : ℤ
deriving DecidableEq

instance : Inhabited Rect := ⟨⟨0, 0, 0, 0⟩⟩

def Rect.tl (r : Rect) : Point := ⟨r.x, r.y⟩

def Rect.br (r : Rect) : Point := ⟨r.x + r.width, r.y + r.height⟩

/-- cv boundingRect of a contour: the minimal up-right rectangle containing all
    points, pixel-inclusive (width = max x - min x + 1). An empty contour gives
    the zero rectangle. -/
def boundingRect : List Point → Rect
  | [] => ⟨0, 0, 0, 0⟩
  | p :: ps =>
      let xs := (p :: ps).map Point.x
      let ys := (p :: ps).map Point.y
      let minx := xs.foldl min p.x
      let maxx := xs.foldl max p.x
      let miny := ys.foldl min p.y
      let maxy := ys.foldl max p.y
      ⟨minx, miny, maxx - minx + 1, maxy - miny + 1⟩

/-- The centroid computed at upose.cpp line 133: (bounding.tl() + bounding.br()) * 0.5,
    with cv's saturating rounding on each coordinate. -/
def cvMidPoint (a b : Point) : Point := ⟨halfRoundEven (a.x + b.x), halfRoundEven (a.y + b.y)⟩

/-- The persistent 2D feature estimates (Features2D of upose.h, as used by upose.cpp). -/
structure Features2D where
  face : Point
  neck : Point
  leftShoulder : Point
  rightShoulder : Point
  leftHand : Point
  rightHand : Point
deriving DecidableEq

/-- Tracking state: m_last2D (the display estimates; hands are sleeve-normalized)
    and m_lastu2D (the unnormalized hand centroids, which the hand cost distances
    are measured from and updated to). -/
structure TrackState where
  last2D : Features2D
  lastu2D : Features2D
deriving DecidableEq

/-- Lines 130-137 of upose.cpp: every contour yields its bounding rectangle and the
    centroid (bounding-box midpoint). No contour is discarded and none are reordered. -/
def extractCandidates (contours : List (List Point)) : List (Rect × Point) :=
  contours.map (fun c => let b := boundingRect c; (b, cvMidPoint b.tl b.br))

/-- Line 141: cost of a candidate for the Face role:
    distance to the previous face estimate + centroid.y - width. -/
noncomputable def faceCost (s : TrackState) (b : Rect) (c : Point) : ℤ :=
  cppTrunc (cvNorm (s.last2D.face - c) + (c.y : ℝ) - (b.width : ℝ))

/-- Line 142: cost of a candidate for the LeftHand role:
    distance to the previous (unnormalized) left-hand estimate + centroid.x - width. -/
noncomputable def leftCost (s : TrackState) (b : Rect) (c : Point) : ℤ :=
  cppTrunc (cvNorm (s.lastu2D.leftHand - c) + (c.x : ℝ) - (b.width : ℝ))

/-- Line 143: cost of a candidate for the RightHand role:
    distance to the previous (unnormalized) right-hand estimate + (cols - centroid.x) - width. -/
noncomputable def rightCost (s : TrackState) (cols : ℤ) (b : Rect) (c : Point) : ℤ :=
  cppTrunc (cvNorm (s.lastu2D.rightHand - c) + ((cols : ℝ) - (c.x : ℝ)) - (b.width : ℝ))

noncomputable def faceCosts (s : TrackState) (contours : List (List Point)) : List ℤ :=
  (extractCandidates contours).map (fun bc => faceCost s bc.1 bc.2)

noncomputable def leftCosts (s : TrackState) (contours : List (List Point)) : List ℤ :=
  (extractCandidates contours).map (fun bc => leftCost s bc.1 bc.2)

noncomputable def rightCosts (s : TrackState) (cols : ℤ) (contours : List (List Point)) : List ℤ :=
  (extractCandidates contours).map (fun bc => rightCost s cols bc.1 bc.2)

/-- Lines 148-152: the per-role initial minimum cost (rows² + cols²) / 64,
    with C++ integer division. -/
def sentinel (rows cols : ℤ) : ℤ := Int.tdiv (rows * rows + cols * cols) 64

/-- The inner strict-< minimisation scan of lines 158-165, one role at a time:
    the accumulator carries (minCost, index), the index starting as none (-1 in C++). -/
def selectMinGo : List ℤ → ℕ → ℤ × Option ℕ → ℤ × Option ℕ
  | [], _, acc => acc
  | c :: cs, i, acc => selectMinGo cs (i + 1) (if c < acc.1 then (c, some i) else acc)

/-- The per-role minimisation of lines 148-165 over the whole candidate cost list. -/
def selectMin (cs : List ℤ) (init : ℤ) : ℤ × Option ℕ := selectMinGo cs 0 (init, none)

/-- The candidate index selected for the Face role (indices[0] of line 154). -/
noncomputable def faceIdx (contours : List (List Point)) (rows cols : ℤ) (s : TrackState) :
    Option ℕ :=
  (selectMin (faceCosts s contours) (sentinel rows cols)).2

/-- The candidate index selected for the LeftHand role (indices[1]). -/
noncomputable def leftIdx (contours : List (List Point)) (rows cols : ℤ) (s : TrackState) :
    Option ℕ :=
  (selectMin (leftCosts s contours) (sentinel rows cols)).2

/-- The candidate index selected for the RightHand role (indices[2]). -/
noncomputable def rightIdx (contours : List (List Point)) (rows cols : ℤ) (s : TrackState) :
    Option ℕ :=
  (selectMin (rightCosts s cols contours) (sentinel rows cols)).2

/-- The nearest-point loop of sleeveNormalize (lines 102-111): per-index truncated
    double distance, strict-< update of the (bestDist, bestIndex) accumulator. -/
def scanMinIdx : List ℤ → ℕ → ℤ × ℕ → ℤ × ℕ
  | [], _, acc => acc
  | d :: ds, i, acc => scanMinIdx ds (i + 1) (if d < acc.1 then (d, i) else acc)

/-- upose.cpp lines 101-114, sleeveNormalize: scan for the contour point nearest
    the shoulder (truncated double distance, strict-< update, initial best distance
    100000 and initial index 0), then return the contour point half the contour
    length further along, wrapping around. -/
noncomputable def sleeveNormalize (contour : List Point) (shoulder : Point) : Point :=
  let best := scanMinIdx (contour.map (fun p => cppTrunc (cvNorm (shoulder - p)))) 0
    ((100000 : ℤ), (0 : ℕ))
  contour.getD ((best.2 + contour.length / 2) % contour.length) default

/-- upose.cpp lines 121-197, Context::track2DFeatures: when at least 3 contours are
    found, greedily assign a candidate to each role (strictly below the sentinel),
    update the face/hand estimates, derive neck and shoulders from the face bounding
    box, and sleeve-normalize assigned hands against the (possibly fresh) shoulders.
    With fewer than 3 contours the state is untouched. -/
noncomputable def track2DFeatures (contours : List (List Point)) (rows cols : ℤ)
    (s : TrackState) : TrackState :=
  if 3 ≤ contours.length then
    let cands := extractCandidates contours
    let iF := faceIdx contours rows cols s
    let iL := leftIdx contours rows cols s
    let iR := rightIdx contours rows cols s
    let face' := match iF with
      | some i => (cands.getD i default).2
      | none => s.last2D.face
    let leftU' := match iL with
      | some i => (cands.getD i default).2
      | none => s.lastu2D.leftHand
    let rightU' := match iR with
      | some i => (cands.getD i default).2
      | none => s.lastu2D.rightHand
    let nss := match iF with
      | some i =>
          let f := (cands.getD i default).1
          let neck : Point := ⟨f.x, f.y + 2 * f.width⟩
          (neck, (⟨neck.x + Int.tdiv (-f.width) 2, neck.y + 0⟩ : Point),
            (⟨neck.x + Int.tdiv (3 * f.width) 2, neck.y + 0⟩ : Point))
      | none => (s.last2D.neck, s.last2D.leftShoulder, s.last2D.rightShoulder)
    let leftHand' := match iL with
      | some i => sleeveNormalize (contours.getD i []) nss.2.1
      | none => s.last2D.leftHand
    let rightHand' := match iR with
      | some i => sleeveNormalize (contours.getD i []) nss.2.2
      | none => s.last2D.rightHand
    { last2D := { face := face', neck := nss.1, leftShoulder := nss.2.1,
                  rightShoulder := nss.2.2, leftHand := leftHand', rightHand := rightHand' },
      lastu2D := { s.lastu2D with leftHand := leftU', rightHand := rightU' } }
  else s

/-- One iteration of optimizeRandomSearch (upose.cpp lines 34-50) on the state
    (optimum, candidate, best): perturb coordinate iteration % dimension of the
    candidate by (rand % (2 radius)) - radius away from the optimum, accept on a
    strictly better cost, otherwise revert the perturbed coordinate. -/
def orsStep (cost : List ℤ → ℤ) (dimension : ℕ) (radius : ℤ) (rnd : ℕ) (iteration : ℕ)
    (st : List ℤ × List ℤ × ℤ) : List ℤ × List ℤ × ℤ :=
  let dim := iteration % dimension
  let change := (rnd : ℤ) % (2 * radius) - radius
  let candidate := st.2.1.set dim (st.1.getD dim 0 + change)
  let candidateCost := cost candidate
  if candidateCost < st.2.2 then (candidate, candidate, candidateCost)
  else (st.1, candidate.set dim (st.1.getD dim 0), st.2.2)

/-- The optimizer state after k iterations, seeded with the initial guess
    (lines 29-32: candidate starts as a copy of optimum, best as its cost). -/
def orsIter (cost : List ℤ → ℤ) (dimension : ℕ) (radius : ℤ) (rands : ℕ → ℕ)
    (optimum : List ℤ) : ℕ → List ℤ × List ℤ × ℤ
  | 0 => (optimum, optimum, cost optimum)
  | k + 1 => orsStep cost dimension radius (rands k) k
      (orsIter cost dimension radius rands optimum k)

/-- upose.cpp lines 19-53, optimizeRandomSearch: run exactly iterationCount
    iterations and return the final optimum. The pseudo-random draws of rand()
    are supplied as the nonnegative stream rands. -/
def optimizeRandomSearch (cost : List ℤ → ℤ) (dimension iterationCount : ℕ) (radius : ℤ)
    (rands : ℕ → ℕ) (optimum : List ℤ) : List ℤ :=
  (orsIter cost dimension radius rands optimum iterationCount).1

end UPose

namespace Heat

/- Embedding of the heatmap variant of the library (the second source file):
   scalar fields are finite 2D grids of reals. -/

open UPose

/-- A 2D scalar field (a float Mat): its size and the value at each pixel (x, y). -/
structure Field where
  width : ℕ
  height : ℕ
  val : ℕ → ℕ → ℝ

/-- Row-major pixel enumeration, the scan order of cv minMaxLoc and moments. -/
def positionsRM (w h : ℕ) : List (ℕ × ℕ) :=
  (List.range h).flatMap (fun y => (List.range w).map (fun x => (x, y)))

/-- Pointwise product of two fields (cv Mat::mul). -/
noncomputable def fieldMul (a b : Field) : Field :=
  ⟨a.width, a.height, fun x y => a.val x y * b.val x y⟩

/-- generateDeltaMap of the heatmap source: the Gaussian-shaped prior field around
    pt; muX/muY come from C++ integer division, sdX/sdY from float subtraction. -/
noncomputable def generateDeltaMap (w h : ℕ) (pt : Point) (k lx ux ly uy : ℤ) : Field :=
  let muX : ℝ := (Int.tdiv (k * (ux + lx)) 2 : ℤ)
  let muY : ℝ := (Int.tdiv (k * (uy + ly)) 2 : ℤ)
  let sdX : ℝ := ((k * ux : ℤ) : ℝ) - muX
  let sdY : ℝ := ((k * uy : ℤ) : ℝ) - muY
  ⟨w, h, fun x y =>
    let dx : ℝ := ((x : ℝ) - (pt.x : ℝ)) - muX
    let dy : ℝ := ((y : ℝ) - (pt.y : ℝ)) - muY
    Real.exp (-(dx ^ 2 + dy ^ 2) / (2 * (sdX ^ 2 + sdY ^ 2)))⟩

/-- TrackedPoint of the heatmap variant: a location and the confidence
    (the maximum heatmap value found for it). -/
structure TrackedPoint where
  pt : Point
  confidence : ℝ

/-- Features2D of the heatmap variant (only the left hand is tracked). -/
structure Features2D where
  leftHand : TrackedPoint

/-- leftHandmap of the heatmap source: builds the centroid prior and the motion
    prior, and returns foreground.mul(skin).mul(centroidMap). The motion map is
    computed but does not enter the returned product. -/
noncomputable def leftHandmap (w h : ℕ) (foreground skin : Field) (centroid : Point)
    (previous : Features2D) : Field :=
  let centroidMap := generateDeltaMap w h centroid 100 (-3) (-1) (-3) (-1)
  let motionMap := generateDeltaMap w h previous.leftHand.pt 50 (-1) 1 (-1) 1
  fieldMul (fieldMul foreground skin) centroidMap

/-- cv minMaxLoc, maximum part: row-major scan with strict-> update, returning
    the location of the first maximum and the maximum value. -/
noncomputable def minMaxLocMax (f : Field) : (ℕ × ℕ) × ℝ :=
  (positionsRM f.width f.height).foldl
    (fun acc p => if f.val p.1 p.2 > acc.2 then (p, f.val p.1 p.2) else acc)
    ((0, 0), f.val 0 0)

/-- trackPoint of the heatmap source: the tracked point moves to the heatmap
    argmax and its confidence becomes the maximum value. -/
noncomputable def trackPoint (heatmap : Field) (p : TrackedPoint) : TrackedPoint :=
  ⟨⟨((minMaxLocMax heatmap).1.1 : ℤ), ((minMaxLocMax heatmap).1.2 : ℤ)⟩,
    (minMaxLocMax heatmap).2⟩

/-- Raw moment m00 of a float field (cv moments): the sum of all values. -/
noncomputable def m00 (f : Field) : ℝ :=
  ((positionsRM f.width f.height).map (fun p => f.val p.1 p.2)).sum

/-- Raw moment m10: the x-weighted sum of all values. -/
noncomputable def m10 (f : Field) : ℝ :=
  ((positionsRM f.width f.height).map (fun p => (p.1 : ℝ) * f.val p.1 p.2)).sum

/-- Raw moment m01: the y-weighted sum of all values. -/
noncomputable def m01 (f : Field) : ℝ :=
  ((positionsRM f.width f.height).map (fun p => (p.2 : ℝ) * f.val p.1 p.2)).sum

/-- momentCentroid of the heatmap source: Point(m10 / m00, m01 / m00), an
    unguarded division by m00 narrowed to int by the cv Point constructor. -/
noncomputable def momentCentroid (f : Field) : Point :=
  ⟨cppTrunc (m10 f / m00 f), cppTrunc (m01 f / m00 f)⟩

end Heat

namespace UPose

/- Generic fold lemmas used to characterize the minimisation scans. -/

theorem foldl_min_le_init {α : Type*} [LinearOrder α] (l : List α) (i : α) :
    l.foldl min i ≤ i := by
  induction l generalizing i with
  | nil => exact le_refl i
  | cons a l ih => exact le_trans (ih (min i a)) (min_le_left i a)

theorem foldl_min_le_mem {α : Type*} [LinearOrder α] {c : α} {l : List α} (i : α)
    (h : c ∈ l) : l.foldl min i ≤ c := by
  induction l generalizing i with
  | nil => cases h
  | cons a l ih =>
    rcases List.mem_cons.mp h with rfl | h'
    · exact le_trans (foldl_min_le_init l (min i c)) (min_le_right i c)
    · exact ih (min i a) h'

theorem init_le_foldl_max {α : Type*} [LinearOrder α] (l : List α) (i : α) :
    i ≤ l.foldl max i := by
  induction l generalizing i with
  | nil => exact le_refl i
  | cons a l ih => exact le_trans (le_max_left i a) (ih (max i a))

theorem selectMinGo_fst (cs : List ℤ) (i : ℕ) (acc : ℤ × Option ℕ) :
    (selectMinGo cs i acc).1 = cs.foldl min acc.1 := by
  induction cs generalizing i acc with
  | nil => rfl
  | cons c cs ih =>
    simp only [selectMinGo, List.foldl]
    rw [ih]
    congr 1
    by_cases h : c < acc.1
    · simp [h, min_eq_right (le_of_lt h)]
    · simp [h, min_eq_left (not_lt.mp h)]

/-- Full characterization of the strict-< minimisation scan: either the
    accumulator survives untouched, or the result is the first position
    attaining a value strictly below the initial minimum and all earlier
    entries. -/
theorem selectMinGo_spec (cs : List ℤ) (i : ℕ) (m : ℤ) (oj : Option ℕ) :
    ((selectMinGo cs i (m, oj)).2 = oj ∧ (selectMinGo cs i (m, oj)).1 = m) ∨
    (∃ k, k < cs.length ∧ (selectMinGo cs i (m, oj)).2 = some (i + k) ∧
      (selectMinGo cs i (m, oj)).1 = cs.getD k 0 ∧
      (∀ l, l < k → (selectMinGo cs i (m, oj)).1 < cs.getD l 0) ∧
      (selectMinGo cs i (m, oj)).1 < m) := by
  induction cs generalizing i m oj with
  | nil => left; exact ⟨rfl, rfl⟩
  | cons c cs ih =>
    by_cases h : c < m
    · have hred : selectMinGo (c :: cs) i (m, oj) = selectMinGo cs (i + 1) (c, some i) := by
        simp [selectMinGo, h]
      rw [hred]
      rcases ih (i + 1) c (some i) with ⟨h2, h1⟩ | ⟨k, hk, h2, h1, hlt, hm⟩
      · right
        refine ⟨0, Nat.succ_pos _, ?_, ?_, ?_, ?_⟩
        · rw [h2]; rfl
        · simpa using h1
        · intro l hl; exact absurd hl (Nat.not_lt_zero l)
        · rw [h1]; exact h
      · right
        refine ⟨k + 1, by simp only [List.length_cons]; omega, ?_, ?_, ?_, ?_⟩
        · rw [h2]; congr 1; omega
        · simpa using h1
        · intro l hl
          cases l with
          | zero => simpa using hm
          | succ l' => simpa using hlt l' (by omega)
        · exact lt_trans hm h
    · have hred : selectMinGo (c :: cs) i (m, oj) = selectMinGo cs (i + 1) (m, oj) := by
        simp [selectMinGo, h]
      rw [hred]
      rcases ih (i + 1) m oj with ⟨h2, h1⟩ | ⟨k, hk, h2, h1, hlt, hm⟩
      · left; exact ⟨h2, h1⟩
      · right
        refine ⟨k + 1, by simp only [List.length_cons]; omega, ?_, ?_, ?_, ?_⟩
        · rw [h2]; congr 1; omega
        · simpa using h1
        · intro l hl
          cases l with
          | zero => simpa using lt_of_lt_of_le hm (not_lt.mp h)
          | succ l' => simpa using hlt l' (by omega)
        · exact hm

theorem selectMin_none_iff (cs : List ℤ) (s : ℤ) :
    (selectMin cs s).2 = none ↔ ∀ c ∈ cs, s ≤ c := by
  constructor
  · intro h c hc
    rcases selectMinGo_spec cs 0 s none with ⟨_, h1⟩ | ⟨k, hk, h2, h1, hlt, hm⟩
    · have hfst : (selectMinGo cs 0 (s, none)).1 = cs.foldl min s := selectMinGo_fst cs 0 (s, none)
      have hsc : s = cs.foldl min s := h1.symm.trans hfst
      exact le_trans (le_of_eq hsc) (foldl_min_le_mem s hc)
    · rw [selectMin] at h
      rw [h2] at h
      cases h
  · intro h
    rcases selectMinGo_spec cs 0 s none with ⟨h2, _⟩ | ⟨k, hk, h2, h1, hlt, hm⟩
    · exact h2
    · have hmem : cs.getD k 0 ∈ cs := by
        rw [List.getD_eq_getElem cs 0 hk]
        exact List.getElem_mem hk
      have := h (cs.getD k 0) hmem
      rw [← h1] at this
      exact absurd hm (not_lt.mpr this)

theorem selectMin_some_spec (cs : List ℤ) (s : ℤ) (j : ℕ)
    (h : (selectMin cs s).2 = some j) :
    j < cs.length ∧ (selectMin cs s).1 = cs.getD j 0 ∧ (selectMin cs s).1 < s ∧
    (∀ l, l < j → (selectMin cs s).1 < cs.getD l 0) ∧
    (∀ l, l < cs.length → (selectMin cs s).1 ≤ cs.getD l 0) := by
  have hle : ∀ l, l < cs.length → (selectMin cs s).1 ≤ cs.getD l 0 := by
    intro l hl
    have hfst : (selectMin cs s).1 = cs.foldl min s := selectMinGo_fst cs 0 (s, none)
    rw [hfst]
    refine foldl_min_le_mem s ?_
    rw [List.getD_eq_getElem cs 0 hl]
    exact List.getElem_mem hl
  rcases selectMinGo_spec cs 0 s none with ⟨h2, _⟩ | ⟨k, hk, h2, h1, hlt, hm⟩
  · rw [selectMin] at h; rw [h2] at h; cases h
  · rw [selectMin] at h
    rw [h2] at h
    have hjk : k = j := by injection h with h'; omega
    subst hjk
    exact ⟨hk, h1, hm, hlt, hle⟩

/-- The positive direction: a least strict argmin below the sentinel is what the
    scan selects. -/
theorem selectMin_eq_some (cs : List ℤ) (s : ℤ) (i0 : ℕ) (h1 : i0 < cs.length)
    (h2 : cs.getD i0 0 < s) (h3 : ∀ i, i < cs.length → cs.getD i0 0 ≤ cs.getD i 0)
    (h4 : ∀ i, i < i0 → cs.getD i0 0 < cs.getD i 0) :
    (selectMin cs s).2 = some i0 ∧ (selectMin cs s).1 = cs.getD i0 0 := by
  cases hj : (selectMin cs s).2 with
  | none =>
    have hmem : cs.getD i0 0 ∈ cs := by
      rw [List.getD_eq_getElem cs 0 h1]
      exact List.getElem_mem h1
    have := (selectMin_none_iff cs s).mp hj (cs.getD i0 0) hmem
    exact absurd h2 (not_lt.mpr this)
  | some j =>
    obtain ⟨hjlen, hval, hlts, hstrict, hle⟩ := selectMin_some_spec cs s j hj
    have hji : cs.getD j 0 ≤ cs.getD i0 0 := hval ▸ hle i0 h1
    have hij : cs.getD i0 0 ≤ cs.getD j 0 := h3 j hjlen
    have heq : cs.getD j 0 = cs.getD i0 0 := le_antisymm hji hij
    rcases lt_trichotomy j i0 with hlt | hrfl | hgt
    · have := h4 j hlt
      rw [heq] at this
      exact absurd this (lt_irrefl _)
    · subst hrfl
      exact ⟨rfl, hval⟩
    · have := hstrict i0 hgt
      rw [hval, heq] at this
      exact absurd this (lt_irrefl _)

end UPose

namespace UPose

/- Projection lemmas for the tracking step, by cases on the selected indices. -/

theorem track_face_some (contours : List (List Point)) (rows cols : ℤ) (s : TrackState)
    (h3 : 3 ≤ contours.length) (i : ℕ) (hF : faceIdx contours rows cols s = some i) :
    (track2DFeatures contours rows cols s).last2D.face =
      ((extractCandidates contours).getD i default).2 := by
  simp only [track2DFeatures, if_pos h3, hF]

theorem track_face_none (contours : List (List Point)) (rows cols : ℤ) (s : TrackState)
    (h3 : 3 ≤ contours.length) (hF : faceIdx contours rows cols s = none) :
    (track2DFeatures contours rows cols s).last2D.face = s.last2D.face := by
  simp only [track2DFeatures, if_pos h3, hF]

theorem track_leftU_some (contours : List (List Point)) (rows cols : ℤ) (s : TrackState)
    (h3 : 3 ≤ contours.length) (i : ℕ) (hL : leftIdx contours rows cols s = some i) :
    (track2DFeatures contours rows cols s).lastu2D.leftHand =
      ((extractCandidates contours).getD i default).2 := by
  simp only [track2DFeatures, if_pos h3, hL]

theorem track_leftU_none (contours : List (List Point)) (rows cols : ℤ) (s : TrackState)
    (h3 : 3 ≤ contours.length) (hL : leftIdx contours rows cols s = none) :
    (track2DFeatures contours rows cols s).lastu2D.leftHand = s.lastu2D.leftHand := by
  simp only [track2DFeatures, if_pos h3, hL]

theorem track_rightU_some (contours : List (List Point)) (rows cols : ℤ) (s : TrackState)
    (h3 : 3 ≤ contours.length) (i : ℕ) (hR : rightIdx contours rows cols s = some i) :
    (track2DFeatures contours rows cols s).lastu2D.rightHand =
      ((extractCandidates contours).getD i default).2 := by
  simp only [track2DFeatures, if_pos h3, hR]

theorem track_rightU_none (contours : List (List Point)) (rows cols : ℤ) (s : TrackState)
    (h3 : 3 ≤ contours.length) (hR : rightIdx contours rows cols s = none) :
    (track2DFeatures contours rows cols s).lastu2D.rightHand = s.lastu2D.rightHand := by
  simp only [track2DFeatures, if_pos h3, hR]

theorem track_neck_some (contours : List (List Point)) (rows cols : ℤ) (s : TrackState)
    (h3 : 3 ≤ contours.length) (i : ℕ) (hF : faceIdx contours rows cols s = some i) :
    (track2DFeatures contours rows cols s).last2D.neck =
      ⟨((extractCandidates contours).getD i default).1.x,
        ((extractCandidates contours).getD i default).1.y +
          2 * ((extractCandidates contours).getD i default).1.width⟩ := by
  simp only [track2DFeatures, if_pos h3, hF]

theorem track_leftShoulder_some (contours : List (List Point)) (rows cols : ℤ)
    (s : TrackState) (h3 : 3 ≤ contours.length) (i : ℕ)
    (hF : faceIdx contours rows cols s = some i) :
    (track2DFeatures contours rows cols s).last2D.leftShoulder =
      ⟨((extractCandidates contours).getD i default).1.x +
          Int.tdiv (-((extractCandidates contours).getD i default).1.width) 2,
        ((extractCandidates contours).getD i default).1.y +
          2 * ((extractCandidates contours).getD i default).1.width + 0⟩ := by
  simp only [track2DFeatures, if_pos h3, hF]

theorem track_rightShoulder_some (contours : List (List Point)) (rows cols : ℤ)
    (s : TrackState) (h3 : 3 ≤ contours.length) (i : ℕ)
    (hF : faceIdx contours rows cols s = some i) :
    (track2DFeatures contours rows cols s).last2D.rightShoulder =
      ⟨((extractCandidates contours).getD i default).1.x +
          Int.tdiv (3 * ((extractCandidates contours).getD i default).1.width) 2,
        ((extractCandidates contours).getD i default).1.y +
          2 * ((extractCandidates contours).getD i default).1.width + 0⟩ := by
  simp only [track2DFeatures, if_pos h3, hF]

theorem track_leftHand_some (contours : List (List Point)) (rows cols : ℤ) (s : TrackState)
    (h3 : 3 ≤ contours.length) (i : ℕ) (hL : leftIdx contours rows cols s = some i) :
    (track2DFeatures contours rows cols s).last2D.leftHand =
      sleeveNormalize (contours.getD i [])
        (track2DFeatures contours rows cols s).last2D.leftShoulder := by
  cases hF : faceIdx contours rows cols s with
  | none => simp only [track2DFeatures, if_pos h3, hL, hF]
  | some f => simp only [track2DFeatures, if_pos h3, hL, hF]

theorem track_rightHand_some (contours : List (List Point)) (rows cols : ℤ) (s : TrackState)
    (h3 : 3 ≤ contours.length) (i : ℕ) (hR : rightIdx contours rows cols s = some i) :
    (track2DFeatures contours rows cols s).last2D.rightHand =
      sleeveNormalize (contours.getD i [])
        (track2DFeatures contours rows cols s).last2D.rightShoulder := by
  cases hF : faceIdx contours rows cols s with
  | none => simp only [track2DFeatures, if_pos h3, hR, hF]
  | some f => simp only [track2DFeatures, if_pos h3, hR, hF]

theorem faceCosts_length (s : TrackState) (contours : List (List Point)) :
    (faceCosts s contours).length = contours.length := by
  simp [faceCosts, extractCandidates]

theorem leftCosts_length (s : TrackState) (contours : List (List Point)) :
    (leftCosts s contours).length = contours.length := by
  simp [leftCosts, extractCandidates]

theorem rightCosts_length (s : TrackState) (cols : ℤ) (contours : List (List Point)) :
    (rightCosts s cols contours).length = contours.length := by
  simp [rightCosts, extractCandidates]

/-- Membership in a cost list as an indexed fact. -/
theorem mem_getD_of_mem {cs : List ℤ} {c : ℤ} (h : c ∈ cs) :
    ∃ i, i < cs.length ∧ cs.getD i 0 = c := by
  obtain ⟨i, hi, hgi⟩ := List.mem_iff_getElem.mp h
  exact ⟨i, hi, by rw [List.getD_eq_getElem cs 0 hi]; exact hgi⟩

end UPose

namespace UPose

/-- A concrete tracking state used to exercise the theorems: the face estimate and
    both unnormalized hand estimates sit at (40, 40). -/
def demoState : TrackState :=
  { last2D := { face := ⟨40, 40⟩, neck := ⟨0, 0⟩, leftShoulder := ⟨0, 0⟩,
                rightShoulder := ⟨0, 0⟩, leftHand := ⟨0, 0⟩, rightHand := ⟨0, 0⟩ },
    lastu2D := { face := ⟨0, 0⟩, neck := ⟨0, 0⟩, leftShoulder := ⟨0, 0⟩,
                 rightShoulder := ⟨0, 0⟩, leftHand := ⟨40, 40⟩, rightHand := ⟨40, 40⟩ } }

/-- Three concrete single-point contours; all distances to the demo estimates are
    exact integers (0 or 40). -/
def demoContours : List (List Point) := [[⟨40, 40⟩], [⟨40, 0⟩], [⟨0, 40⟩]]

/-- C2: with fewer than 3 candidate regions the tracking step performs no update at
    all: the returned state (every role location and every derived point) is exactly
    the previous state. -/
theorem fewCandidates_no_update (contours : List (List Point)) (rows cols : ℤ)
    (s : TrackState) (h : contours.length < 3) :
    track2DFeatures contours rows cols s = s := by
  rw [track2DFeatures, if_neg (by omega)]

/-- Witness for C2 at a concrete 2-contour frame. -/
theorem fewCandidates_no_update_witness :
    ([[(⟨1, 1⟩ : Point)], [⟨2, 2⟩]] : List (List Point)).length < 3 ∧
    track2DFeatures [[⟨1, 1⟩], [⟨2, 2⟩]] 10 10 demoState = demoState :=
  ⟨by decide, fewCandidates_no_update [[⟨1, 1⟩], [⟨2, 2⟩]] 10 10 demoState (by decide)⟩

/-- C5: the per-role scan updates its minimum only on strict less-than, so the cost
    of the selected candidate is strictly below every earlier candidate's cost and at
    most every candidate's cost; consequently, on an exact cost tie the
    earlier-indexed candidate wins and the later tied candidate is never selected. -/
theorem tie_prefers_earlier (cs : List ℤ) (init : ℤ) (j : ℕ)
    (h : (selectMin cs init).2 = some j) :
    (∀ l, l < j → cs.getD j 0 < cs.getD l 0) ∧
    (∀ l, l < cs.length → cs.getD j 0 ≤ cs.getD l 0) ∧
    (∀ i k, i < k → cs.getD i 0 = cs.getD k 0 → (selectMin cs init).2 ≠ some k) := by
  obtain ⟨hlen, hval, hlts, hstrict, hle⟩ := selectMin_some_spec cs init j h
  refine ⟨fun l hl => hval ▸ hstrict l hl, fun l hl => hval ▸ hle l hl, ?_⟩
  intro i k hik heq hk
  rw [h] at hk
  injection hk with hk'
  subst hk'
  have h1 := hstrict i hik
  rw [hval, heq] at h1
  exact lt_irrefl _ h1

/-- Witness for C5: with the tied cost list [5, 7, 5] the scan never selects the
    later tied index 2. -/
theorem tie_prefers_earlier_witness : (selectMin [5, 7, 5] 10).2 ≠ some 2 :=
  (tie_prefers_earlier [5, 7, 5] 10 0 (by decide)).2.2 0 2 (by decide) (by decide)

/- Optimizer invariants for claim C4. -/

theorem list_set_getD_self (l : List ℤ) (n : ℕ) : l.set n (l.getD n 0) = l := by
  induction l generalizing n with
  | nil => rfl
  | cons a l ih =>
    cases n with
    | zero => simp
    | succ n' => simp only [List.set, List.getD_cons_succ]; rw [ih]

/-- The candidate buffer equals the optimum at every iteration boundary
    (lines 30 and 48: it starts as a copy and every rejection reverts it). -/
theorem orsIter_candidate_eq (cost : List ℤ → ℤ) (d : ℕ) (radius : ℤ) (rands : ℕ → ℕ)
    (seed : List ℤ) (k : ℕ) :
    (orsIter cost d radius rands seed k).2.1 = (orsIter cost d radius rands seed k).1 := by
  induction k with
  | zero => rfl
  | succ k ih =>
    rw [orsIter, orsStep]
    by_cases hc : cost ((orsIter cost d radius rands seed k).2.1.set (k % d)
        ((orsIter cost d radius rands seed k).1.getD (k % d) 0 +
          ((rands k : ℤ) % (2 * radius) - radius))) <
        (orsIter cost d radius rands seed k).2.2
    · simp only [if_pos hc]
    · simp only [if_neg hc]
      rw [ih, List.set_set, list_set_getD_self]

/-- The running best cost is the cost of the running optimum. -/
theorem orsIter_best_eq_cost (cost : List ℤ → ℤ) (d : ℕ) (radius : ℤ) (rands : ℕ → ℕ)
    (seed : List ℤ) (k : ℕ) :
    (orsIter cost d radius rands seed k).2.2 = cost (orsIter cost d radius rands seed k).1 := by
  induction k with
  | zero => rfl
  | succ k ih =>
    rw [orsIter, orsStep]
    by_cases hc : cost ((orsIter cost d radius rands seed k).2.1.set (k % d)
        ((orsIter cost d radius rands seed k).1.getD (k % d) 0 +
          ((rands k : ℤ) % (2 * radius) - radius))) <
        (orsIter cost d radius rands seed k).2.2
    · simp only [if_pos hc]
    · simp only [if_neg hc]
      exact ih

end UPose

namespace UPose

/-- One optimizer iteration never increases the best cost. -/
theorem orsIter_best_step_le (cost : List ℤ → ℤ) (d : ℕ) (radius : ℤ) (rands : ℕ → ℕ)
    (seed : List ℤ) (k : ℕ) :
    (orsIter cost d radius rands seed (k + 1)).2.2 ≤ (orsIter cost d radius rands seed k).2.2 := by
  rw [orsIter, orsStep]
  by_cases hc : cost ((orsIter cost d radius rands seed k).2.1.set (k % d)
      ((orsIter cost d radius rands seed k).1.getD (k % d) 0 +
        ((rands k : ℤ) % (2 * radius) - radius))) <
      (orsIter cost d radius rands seed k).2.2
  · simp only [if_pos hc]
    exact le_of_lt hc
  · simp only [if_neg hc]
    exact le_refl _

/-- The best cost after any number of iterations is at most the seed's cost. -/
theorem orsIter_best_le_seed (cost : List ℤ → ℤ) (d : ℕ) (radius : ℤ) (rands : ℕ → ℕ)
    (seed : List ℤ) (k : ℕ) :
    (orsIter cost d radius rands seed k).2.2 ≤ cost seed := by
  induction k with
  | zero => exact le_refl _
  | succ k ih => exact le_trans (orsIter_best_step_le cost d radius rands seed k) ih

/-- C4: over every cost function, dimension, budget, radius, seed and random
    stream, the optimizer's best cost is non-increasing across iterations (a
    candidate is accepted only on strictly smaller cost), the returned vector costs
    at most the seed; iteration t perturbs only coordinate t mod D, and the result
    after the full budget is returned with no other stopping rule. -/
theorem optimizer_spec (cost : List ℤ → ℤ) (dimension : ℕ) (radius : ℤ)
    (rands : ℕ → ℕ) (seed : List ℤ) :
    (∀ k, (orsIter cost dimension radius rands seed (k + 1)).2.2 ≤
        (orsIter cost dimension radius rands seed k).2.2) ∧
    (∀ budget, cost (optimizeRandomSearch cost dimension budget radius rands seed) ≤
        cost seed) ∧
    (∀ k j, j ≠ k % dimension →
        (orsIter cost dimension radius rands seed (k + 1)).1.getD j 0 =
        (orsIter cost dimension radius rands seed k).1.getD j 0) ∧
    (∀ budget, optimizeRandomSearch cost dimension budget radius rands seed =
        (orsIter cost dimension radius rands seed budget).1) := by
  refine ⟨orsIter_best_step_le cost dimension radius rands seed, ?_, ?_, fun budget => rfl⟩
  · intro budget
    have h1 := orsIter_best_le_seed cost dimension radius rands seed budget
    rw [orsIter_best_eq_cost] at h1
    exact h1
  · intro k j hj
    rw [orsIter, orsStep]
    by_cases hc : cost ((orsIter cost dimension radius rands seed k).2.1.set (k % dimension)
        ((orsIter cost dimension radius rands seed k).1.getD (k % dimension) 0 +
          ((rands k : ℤ) % (2 * radius) - radius))) <
        (orsIter cost dimension radius rands seed k).2.2
    · simp only [if_pos hc]
      rw [orsIter_candidate_eq]
      simp [List.getD, List.getElem?_set_ne (Ne.symm hj)]
    · simp only [if_neg hc]

/-- Witness for C4 at a concrete run (cost = first coordinate, dimension 2,
    radius 1, zero random stream, seed [3, 4]): the coordinate not scheduled at
    iteration 0 is untouched by the first step. -/
theorem optimizer_spec_witness :
    (orsIter (fun l => l.getD 0 0) 2 1 (fun _ => 0) [3, 4] 1).1.getD 1 0 =
      (orsIter (fun l => l.getD 0 0) 2 1 (fun _ => 0) [3, 4] 0).1.getD 1 0 :=
  (optimizer_spec (fun l => l.getD 0 0) 2 1 (fun _ => 0) [3, 4]).2.2.1 0 1 (by decide)

end UPose

namespace UPose

/- Concrete evaluation helpers for the cost expressions. -/

theorem faceCost_cast (s : TrackState) (b : Rect) (c : Point) :
    faceCost s b c = cppTrunc (cvNorm (s.last2D.face - c) + ((c.y - b.width : ℤ) : ℝ)) := by
  rw [faceCost]
  congr 1
  push_cast
  ring

theorem leftCost_cast (s : TrackState) (b : Rect) (c : Point) :
    leftCost s b c = cppTrunc (cvNorm (s.lastu2D.leftHand - c) + ((c.x - b.width : ℤ) : ℝ)) := by
  rw [leftCost]
  congr 1
  push_cast
  ring

theorem rightCost_cast (s : TrackState) (cols : ℤ) (b : Rect) (c : Point) :
    rightCost s cols b c =
      cppTrunc (cvNorm (s.lastu2D.rightHand - c) + ((cols - c.x - b.width : ℤ) : ℝ)) := by
  rw [rightCost]
  congr 1
  push_cast
  ring

/-- Truncated cost evaluation when the squared distance is a perfect square. -/
theorem cppTrunc_cost_eval (p : Point) (bias a : ℤ) (ha : 0 ≤ a)
    (hsq : p.x ^ 2 + p.y ^ 2 = a ^ 2) (hnn : 0 ≤ a + bias) :
    cppTrunc (cvNorm p + (bias : ℝ)) = a + bias := by
  have hn : cvNorm p = (a : ℝ) := by
    rw [cvNorm, show ((p.x : ℝ) ^ 2 + (p.y : ℝ) ^ 2) = ((a : ℝ)) ^ 2 by
      exact_mod_cast congrArg (fun z : ℤ => (z : ℝ)) hsq]
    exact Real.sqrt_sq (by exact_mod_cast ha)
  rw [hn, cppTrunc, if_pos (by exact_mod_cast hnn),
    show (a : ℝ) + (bias : ℝ) = ((a + bias : ℤ) : ℝ) by push_cast; ring]
  exact Int.floor_intCast _

theorem extractCandidates_demo :
    extractCandidates demoContours =
      [(⟨40, 40, 1, 1⟩, ⟨40, 40⟩), (⟨40, 0, 1, 1⟩, ⟨40, 0⟩), (⟨0, 40, 1, 1⟩, ⟨0, 40⟩)] := by
  decide

theorem faceCosts_demo : faceCosts demoState demoContours = [39, 39, 79] := by
  rw [faceCosts, extractCandidates_demo]
  simp only [List.map_cons, List.map_nil]
  rw [faceCost_cast, faceCost_cast, faceCost_cast]
  show [cppTrunc (cvNorm (⟨0, 0⟩ : Point) + ((39 : ℤ) : ℝ)),
        cppTrunc (cvNorm (⟨0, 40⟩ : Point) + ((-1 : ℤ) : ℝ)),
        cppTrunc (cvNorm (⟨40, 0⟩ : Point) + ((39 : ℤ) : ℝ))] = [39, 39, 79]
  rw [cppTrunc_cost_eval ⟨0, 0⟩ 39 0 (by norm_num) (by norm_num) (by norm_num),
    cppTrunc_cost_eval ⟨0, 40⟩ (-1) 40 (by norm_num) (by norm_num) (by norm_num),
    cppTrunc_cost_eval ⟨40, 0⟩ 39 40 (by norm_num) (by norm_num) (by norm_num)]
  norm_num

theorem leftCosts_demo : leftCosts demoState demoContours = [39, 79, 39] := by
  rw [leftCosts, extractCandidates_demo]
  simp only [List.map_cons, List.map_nil]
  rw [leftCost_cast, leftCost_cast, leftCost_cast]
  show [cppTrunc (cvNorm (⟨0, 0⟩ : Point) + ((39 : ℤ) : ℝ)),
        cppTrunc (cvNorm (⟨0, 40⟩ : Point) + ((39 : ℤ) : ℝ)),
        cppTrunc (cvNorm (⟨40, 0⟩ : Point) + ((-1 : ℤ) : ℝ))] = [39, 79, 39]
  rw [cppTrunc_cost_eval ⟨0, 0⟩ 39 0 (by norm_num) (by norm_num) (by norm_num),
    cppTrunc_cost_eval ⟨0, 40⟩ 39 40 (by norm_num) (by norm_num) (by norm_num),
    cppTrunc_cost_eval ⟨40, 0⟩ (-1) 40 (by norm_num) (by norm_num) (by norm_num)]
  norm_num

theorem rightCosts_demo : rightCosts demoState 80 demoContours = [39, 79, 119] := by
  rw [rightCosts, extractCandidates_demo]
  simp only [List.map_cons, List.map_nil]
  rw [rightCost_cast, rightCost_cast, rightCost_cast]
  show [cppTrunc (cvNorm (⟨0, 0⟩ : Point) + ((39 : ℤ) : ℝ)),
        cppTrunc (cvNorm (⟨0, 40⟩ : Point) + ((39 : ℤ) : ℝ)),
        cppTrunc (cvNorm (⟨40, 0⟩ : Point) + ((79 : ℤ) : ℝ))] = [39, 79, 119]
  rw [cppTrunc_cost_eval ⟨0, 0⟩ 39 0 (by norm_num) (by norm_num) (by norm_num),
    cppTrunc_cost_eval ⟨0, 40⟩ 39 40 (by norm_num) (by norm_num) (by norm_num),
    cppTrunc_cost_eval ⟨40, 0⟩ 79 40 (by norm_num) (by norm_num) (by norm_num)]
  norm_num

theorem faceIdx_demo : faceIdx demoContours 80 80 demoState = some 0 := by
  rw [faceIdx, faceCosts_demo]
  decide

theorem leftIdx_demo : leftIdx demoContours 80 80 demoState = some 0 := by
  rw [leftIdx, leftCosts_demo]
  decide

theorem rightIdx_demo : rightIdx demoContours 80 80 demoState = some 0 := by
  rw [rightIdx, rightCosts_demo]
  decide

end UPose

namespace UPose

theorem boundingRect_width_nonneg (c : List Point) : 0 ≤ (boundingRect c).width := by
  cases c with
  | nil => norm_num [boundingRect]
  | cons p ps =>
    have h1 : ((p :: ps).map Point.x).foldl min p.x ≤ p.x := foldl_min_le_init _ _
    have h2 : p.x ≤ ((p :: ps).map Point.x).foldl max p.x := init_le_foldl_max _ _
    simp only [boundingRect]
    omega

theorem extractCandidates_width_nonneg (contours : List (List Point)) (i : ℕ) :
    0 ≤ ((extractCandidates contours).getD i default).1.width := by
  by_cases hi : i < (extractCandidates contours).length
  · rw [List.getD_eq_getElem _ _ hi]
    simp only [extractCandidates, List.getElem_map]
    exact boundingRect_width_nonneg _
  · rw [List.getD_eq_default _ _ (by omega)]
    norm_num [default]

/-- C1: for a frame with at least 3 candidate regions, each role's cost per
    candidate is the truncated sum of the Euclidean distance to the role's previous
    estimate and the anatomical bias (centroid.y - width for Face, centroid.x - width
    for LeftHand, (cols - centroid.x) - width for RightHand, the cost-list
    definitions used below); the role estimate becomes the centroid of the least
    (first on ties) candidate whose cost is strictly below the sentinel
    (rows² + cols²)/64, and is retained unchanged when no candidate beats the
    sentinel. -/
theorem tracker_cost_update (contours : List (List Point)) (rows cols : ℤ)
    (s : TrackState) (h3 : 3 ≤ contours.length) :
    ((∀ i, i < contours.length →
        sentinel rows cols ≤ (faceCosts s contours).getD i 0) →
      (track2DFeatures contours rows cols s).last2D.face = s.last2D.face) ∧
    (∀ i0, i0 < contours.length →
      (faceCosts s contours).getD i0 0 < sentinel rows cols →
      (∀ i, i < contours.length →
        (faceCosts s contours).getD i0 0 ≤ (faceCosts s contours).getD i 0) →
      (∀ i, i < i0 → (faceCosts s contours).getD i0 0 < (faceCosts s contours).getD i 0) →
      (track2DFeatures contours rows cols s).last2D.face =
        ((extractCandidates contours).getD i0 default).2) ∧
    ((∀ i, i < contours.length →
        sentinel rows cols ≤ (leftCosts s contours).getD i 0) →
      (track2DFeatures contours rows cols s).lastu2D.leftHand = s.lastu2D.leftHand) ∧
    (∀ i0, i0 < contours.length →
      (leftCosts s contours).getD i0 0 < sentinel rows cols →
      (∀ i, i < contours.length →
        (leftCosts s contours).getD i0 0 ≤ (leftCosts s contours).getD i 0) →
      (∀ i, i < i0 → (leftCosts s contours).getD i0 0 < (leftCosts s contours).getD i 0) →
      (track2DFeatures contours rows cols s).lastu2D.leftHand =
        ((extractCandidates contours).getD i0 default).2) ∧
    ((∀ i, i < contours.length →
        sentinel rows cols ≤ (rightCosts s cols contours).getD i 0) →
      (track2DFeatures contours rows cols s).lastu2D.rightHand = s.lastu2D.rightHand) ∧
    (∀ i0, i0 < contours.length →
      (rightCosts s cols contours).getD i0 0 < sentinel rows cols →
      (∀ i, i < contours.length →
        (rightCosts s cols contours).getD i0 0 ≤ (rightCosts s cols contours).getD i 0) →
      (∀ i, i < i0 →
        (rightCosts s cols contours).getD i0 0 < (rightCosts s cols contours).getD i 0) →
      (track2DFeatures contours rows cols s).lastu2D.rightHand =
        ((extractCandidates contours).getD i0 default).2) := by
  refine ⟨?_, ?_, ?_, ?_, ?_, ?_⟩
  · intro hall
    refine track_face_none contours rows cols s h3 ?_
    rw [faceIdx]
    refine (selectMin_none_iff _ _).mpr ?_
    intro c hc
    obtain ⟨i, hi, hgi⟩ := mem_getD_of_mem hc
    rw [faceCosts_length] at hi
    rw [← hgi]
    exact hall i hi
  · intro i0 hi0 hlt hmin hfirst
    have hsome := selectMin_eq_some (faceCosts s contours) (sentinel rows cols) i0
      (by rw [faceCosts_length]; exact hi0) hlt
      (fun i hi => hmin i (by rwa [faceCosts_length] at hi)) hfirst
    exact track_face_some contours rows cols s h3 i0 (by rw [faceIdx]; exact hsome.1)
  · intro hall
    refine track_leftU_none contours rows cols s h3 ?_
    rw [leftIdx]
    refine (selectMin_none_iff _ _).mpr ?_
    intro c hc
    obtain ⟨i, hi, hgi⟩ := mem_getD_of_mem hc
    rw [leftCosts_length] at hi
    rw [← hgi]
    exact hall i hi
  · intro i0 hi0 hlt hmin hfirst
    have hsome := selectMin_eq_some (leftCosts s contours) (sentinel rows cols) i0
      (by rw [leftCosts_length]; exact hi0) hlt
      (fun i hi => hmin i (by rwa [leftCosts_length] at hi)) hfirst
    exact track_leftU_some contours rows cols s h3 i0 (by rw [leftIdx]; exact hsome.1)
  · intro hall
    refine track_rightU_none contours rows cols s h3 ?_
    rw [rightIdx]
    refine (selectMin_none_iff _ _).mpr ?_
    intro c hc
    obtain ⟨i, hi, hgi⟩ := mem_getD_of_mem hc
    rw [rightCosts_length] at hi
    rw [← hgi]
    exact hall i hi
  · intro i0 hi0 hlt hmin hfirst
    have hsome := selectMin_eq_some (rightCosts s cols contours) (sentinel rows cols) i0
      (by rw [rightCosts_length]; exact hi0) hlt
      (fun i hi => hmin i (by rwa [rightCosts_length] at hi)) hfirst
    exact track_rightU_some contours rows cols s h3 i0 (by rw [rightIdx]; exact hsome.1)

/-- Witness for C1 at the demo frame: candidate 0 is the cost minimiser for the
    Face role (cost 39, below the sentinel 200) and the face estimate moves to its
    centroid. -/
theorem tracker_cost_update_witness :
    (track2DFeatures demoContours 80 80 demoState).last2D.face =
      ((extractCandidates demoContours).getD 0 default).2 :=
  (tracker_cost_update demoContours 80 80 demoState (by decide)).2.1 0 (by decide)
    (by rw [faceCosts_demo]; decide)
    (by rw [faceCosts_demo]; decide)
    (by intro i hi; omega)

end UPose

namespace UPose

/-- C3: after every Face update (the face index selected some candidate i, whose
    bounding box is the matched face region f), the derived points satisfy
    neck = (f.x, f.y + 2 width), leftShoulder = neck + (-width/2, 0) and
    rightShoulder = neck + (3 width/2, 0); width = 0 (the degenerate empty-contour
    rectangle) is covered since the statement quantifies over every selected i. -/
theorem derived_points_invariant (contours : List (List Point)) (rows cols : ℤ)
    (s : TrackState) (h3 : 3 ≤ contours.length) (i : ℕ)
    (hF : faceIdx contours rows cols s = some i) :
    (track2DFeatures contours rows cols s).last2D.neck =
      ⟨((extractCandidates contours).getD i default).1.x,
        ((extractCandidates contours).getD i default).1.y +
          2 * ((extractCandidates contours).getD i default).1.width⟩ ∧
    (track2DFeatures contours rows cols s).last2D.leftShoulder =
      ⟨(track2DFeatures contours rows cols s).last2D.neck.x -
          ((extractCandidates contours).getD i default).1.width / 2,
        (track2DFeatures contours rows cols s).last2D.neck.y⟩ ∧
    (track2DFeatures contours rows cols s).last2D.rightShoulder =
      ⟨(track2DFeatures contours rows cols s).last2D.neck.x +
          3 * ((extractCandidates contours).getD i default).1.width / 2,
        (track2DFeatures contours rows cols s).last2D.neck.y⟩ := by
  have hw : 0 ≤ ((extractCandidates contours).getD i default).1.width :=
    extractCandidates_width_nonneg contours i
  have hneck := track_neck_some contours rows cols s h3 i hF
  refine ⟨hneck, ?_, ?_⟩
  · rw [track_leftShoulder_some contours rows cols s h3 i hF, hneck]
    simp only [Point.mk.injEq]
    refine ⟨?_, by ring⟩
    rw [Int.neg_tdiv, Int.tdiv_eq_ediv hw (by norm_num)]
    ring
  · rw [track_rightShoulder_some contours rows cols s h3 i hF, hneck]
    simp only [Point.mk.injEq]
    refine ⟨?_, by ring⟩
    rw [Int.tdiv_eq_ediv (by positivity) (by norm_num)]

/-- Witness for C3 at the demo frame, where the selected face region is the unit
    square at (40, 40). -/
theorem derived_points_invariant_witness :
    (track2DFeatures demoContours 80 80 demoState).last2D.neck =
      ⟨((extractCandidates demoContours).getD 0 default).1.x,
        ((extractCandidates demoContours).getD 0 default).1.y +
          2 * ((extractCandidates demoContours).getD 0 default).1.width⟩ ∧
    (track2DFeatures demoContours 80 80 demoState).last2D.leftShoulder =
      ⟨(track2DFeatures demoContours 80 80 demoState).last2D.neck.x -
          ((extractCandidates demoContours).getD 0 default).1.width / 2,
        (track2DFeatures demoContours 80 80 demoState).last2D.neck.y⟩ ∧
    (track2DFeatures demoContours 80 80 demoState).last2D.rightShoulder =
      ⟨(track2DFeatures demoContours 80 80 demoState).last2D.neck.x +
          3 * ((extractCandidates demoContours).getD 0 default).1.width / 2,
        (track2DFeatures demoContours 80 80 demoState).last2D.neck.y⟩ :=
  derived_points_invariant demoContours 80 80 demoState (by decide) 0 faceIdx_demo

/-- C10: the greedy assignment enforces no exclusivity across roles: at the demo
    frame all three roles select the same candidate index 0, so face and both
    (unnormalized) hand estimates are all set to that candidate's centroid (40, 40). -/
theorem no_candidate_exclusivity :
    faceIdx demoContours 80 80 demoState = some 0 ∧
    leftIdx demoContours 80 80 demoState = some 0 ∧
    rightIdx demoContours 80 80 demoState = some 0 ∧
    (track2DFeatures demoContours 80 80 demoState).last2D.face = ⟨40, 40⟩ ∧
    (track2DFeatures demoContours 80 80 demoState).lastu2D.leftHand = ⟨40, 40⟩ ∧
    (track2DFeatures demoContours 80 80 demoState).lastu2D.rightHand = ⟨40, 40⟩ := by
  refine ⟨faceIdx_demo, leftIdx_demo, rightIdx_demo, ?_, ?_, ?_⟩
  · rw [track_face_some demoContours 80 80 demoState (by decide) 0 faceIdx_demo,
      extractCandidates_demo]
    decide
  · rw [track_leftU_some demoContours 80 80 demoState (by decide) 0 leftIdx_demo,
      extractCandidates_demo]
    decide
  · rw [track_rightU_some demoContours 80 80 demoState (by decide) 0 rightIdx_demo,
      extractCandidates_demo]
    decide

end UPose

namespace UPose

theorem halfRoundEven_close (s : ℤ) : (2 * halfRoundEven s - s).natAbs ≤ 1 := by
  rw [halfRoundEven]
  split
  · omega
  · split <;> omega

/-- C6 counterexample: on the frame with a 1-pixel region followed by a 5-pixel-wide
    region, the extractor keeps both regions (nothing is discarded) in the supplied
    order, whose widths [1, 5] are not in descending order. -/
theorem extractor_not_sorted_counterexample :
    (extractCandidates [[⟨0, 0⟩], [⟨0, 0⟩, ⟨4, 0⟩]]).length = 2 ∧
    ((extractCandidates [[⟨0, 0⟩], [⟨0, 0⟩, ⟨4, 0⟩]]).map (fun bc => bc.1.width)) = [1, 5] ∧
    ¬ List.Sorted (· ≥ ·)
      ((extractCandidates [[⟨0, 0⟩], [⟨0, 0⟩, ⟨4, 0⟩]]).map (fun bc => bc.1.width)) := by
  refine ⟨by decide, by decide, by decide⟩

/-- C6 amended: the extractor performs no size filtering and no reordering — the
    candidate list has exactly one entry per contour, the i-th entry coming from the
    i-th contour — and each centroid is the bounding-box midpoint up to the
    half-pixel rounding of cvRound. -/
theorem extractor_amended (contours : List (List Point)) :
    (extractCandidates contours).length = contours.length ∧
    (∀ i, i < contours.length →
      (extractCandidates contours).getD i default =
        (boundingRect (contours.getD i []),
          cvMidPoint (boundingRect (contours.getD i [])).tl
            (boundingRect (contours.getD i [])).br)) ∧
    (∀ a b : Point, (2 * (cvMidPoint a b).x - (a.x + b.x)).natAbs ≤ 1 ∧
      (2 * (cvMidPoint a b).y - (a.y + b.y)).natAbs ≤ 1) := by
  refine ⟨by simp [extractCandidates], ?_, ?_⟩
  · intro i hi
    have hi' : i < (extractCandidates contours).length := by
      simpa [extractCandidates] using hi
    rw [List.getD_eq_getElem _ _ hi', List.getD_eq_getElem _ _ hi]
    simp [extractCandidates]
  · intro a b
    exact ⟨halfRoundEven_close _, halfRoundEven_close _⟩

/-- Witness for the amended C6 at the counterexample frame. -/
theorem extractor_amended_witness :
    (extractCandidates [[⟨0, 0⟩], [⟨0, 0⟩, ⟨4, 0⟩]]).getD 1 default =
      (boundingRect (([[⟨0, 0⟩], [⟨0, 0⟩, ⟨4, 0⟩]] : List (List Point)).getD 1 []),
        cvMidPoint
          (boundingRect (([[⟨0, 0⟩], [⟨0, 0⟩, ⟨4, 0⟩]] : List (List Point)).getD 1 [])).tl
          (boundingRect (([[⟨0, 0⟩], [⟨0, 0⟩, ⟨4, 0⟩]] : List (List Point)).getD 1 [])).br) :=
  (extractor_amended [[⟨0, 0⟩], [⟨0, 0⟩, ⟨4, 0⟩]]).2.1 1 (by decide)

end UPose

namespace Heat

/-- backgroundSubtract of the heatmap source (its sigmoid path): the grayscale
    absolute-difference image g is mapped pixelwise through
    1 / (1 + exp(-(g - 40) * 0.1)). -/
noncomputable def backgroundSubtract (gray : Field) : Field :=
  ⟨gray.width, gray.height, fun x y => 1 / (1 + Real.exp (-(gray.val x y - 40) * 0.1))⟩

end Heat

namespace Heat

open UPose

theorem mem_positionsRM (w h x y : ℕ) : (x, y) ∈ positionsRM w h ↔ x < w ∧ y < h := by
  simp only [positionsRM, List.mem_flatMap, List.mem_map, List.mem_range, Prod.mk.injEq]
  constructor
  · rintro ⟨y', hy', x', hx', rfl, rfl⟩
    exact ⟨hx', hy'⟩
  · rintro ⟨hx, hy⟩
    exact ⟨y, hy, x, hx, rfl, rfl⟩

/-- If no remaining pixel beats the accumulator, the scan keeps it. -/
theorem minMaxFold_keep (f : Field) (p : ℕ × ℕ) (v : ℝ) (ps : List (ℕ × ℕ))
    (h : ∀ q ∈ ps, f.val q.1 q.2 ≤ v) :
    ps.foldl (fun acc q => if f.val q.1 q.2 > acc.2 then (q, f.val q.1 q.2) else acc)
      (p, v) = (p, v) := by
  induction ps with
  | nil => rfl
  | cons q ps ih =>
    have hq : ¬ f.val q.1 q.2 > v := not_lt.mpr (h q (List.mem_cons_self q ps))
    simp only [List.foldl_cons, if_neg hq]
    exact ih (fun r hr => h r (List.mem_cons_of_mem q hr))

/-- If the strict unique maximum p is among the remaining pixels and beats the
    accumulator, the scan ends at p. -/
theorem minMaxFold_reach (f : Field) (ps : List (ℕ × ℕ)) (p : ℕ × ℕ) :
    ∀ (a : ℕ × ℕ) (v : ℝ), p ∈ ps → v < f.val p.1 p.2 →
    (∀ q ∈ ps, q ≠ p → f.val q.1 q.2 < f.val p.1 p.2) →
    ps.foldl (fun acc q => if f.val q.1 q.2 > acc.2 then (q, f.val q.1 q.2) else acc)
      (a, v) = (p, f.val p.1 p.2) := by
  induction ps with
  | nil => intro a v hmem; cases hmem
  | cons q ps ih =>
    intro a v hmem hv huniq
    by_cases hqp : q = p
    · subst hqp
      simp only [List.foldl_cons, if_pos hv]
      refine minMaxFold_keep f q (f.val q.1 q.2) ps ?_
      intro r hr
      by_cases hrq : r = q
      · subst hrq; exact le_refl _
      · exact le_of_lt (huniq r (List.mem_cons_of_mem q hr) hrq)
    · have hps : p ∈ ps := by
        rcases List.mem_cons.mp hmem with rfl | hp'
        · exact absurd rfl hqp
        · exact hp'
      have hqlt : f.val q.1 q.2 < f.val p.1 p.2 :=
        huniq q (List.mem_cons_self q ps) hqp
      simp only [List.foldl_cons]
      by_cases hstep : f.val q.1 q.2 > v
      · rw [if_pos hstep]
        exact ih q (f.val q.1 q.2) hps hqlt
          (fun r hr hrp => huniq r (List.mem_cons_of_mem q hr) hrp)
      · rw [if_neg hstep]
        exact ih a v hps hv (fun r hr hrp => huniq r (List.mem_cons_of_mem q hr) hrp)

/-- The row-major strict-> scan of minMaxLoc returns the unique strict maximum. -/
theorem minMaxLocMax_unique (f : Field) (px py : ℕ) (hx : px < f.width) (hy : py < f.height)
    (huniq : ∀ q ∈ positionsRM f.width f.height, q ≠ (px, py) →
      f.val q.1 q.2 < f.val px py) :
    minMaxLocMax f = ((px, py), f.val px py) := by
  rw [minMaxLocMax]
  by_cases h0 : (px, py) = ((0, 0) : ℕ × ℕ)
  · have hx0 : px = 0 := congrArg Prod.fst h0
    have hy0 : py = 0 := congrArg Prod.snd h0
    subst hx0; subst hy0
    exact minMaxFold_keep f (0, 0) (f.val 0 0) _ (fun q hq => by
      by_cases hq0 : q = ((0, 0) : ℕ × ℕ)
      · subst hq0; exact le_refl _
      · exact le_of_lt (huniq q hq hq0))
  · have h00mem : ((0, 0) : ℕ × ℕ) ∈ positionsRM f.width f.height :=
      (mem_positionsRM _ _ 0 0).mpr ⟨by omega, by omega⟩
    have hv : f.val 0 0 < f.val px py := huniq (0, 0) h00mem (fun hc => h0 hc.symm)
    exact minMaxFold_reach f _ (px, py) (0, 0) (f.val 0 0)
      ((mem_positionsRM _ _ px py).mpr ⟨hx, hy⟩) hv huniq

/-- Following the specification's words for the heatmap prior: the evidence fields
    multiplied by BOTH the anatomical (centroid) prior and the motion prior around
    the point's last known position. Compared against leftHandmap, which the source
    builds from the centroid prior only. -/
noncomputable def specCombinedHandmap (w h : ℕ) (foreground skin : Field)
    (centroid : Point) (previous : Features2D) : Field :=
  fieldMul
    (fieldMul (fieldMul foreground skin) (generateDeltaMap w h centroid 100 (-3) (-1) (-3) (-1)))
    (generateDeltaMap w h previous.leftHand.pt 50 (-1) 1 (-1) 1)

/-- C9 amended: the heatmap actually built is the product of the evidence fields
    with the centroid prior only — it does not depend on the previous location at
    all — and the tracked point moves to the row-major argmax of that product: for a
    field with a unique strict maximum, trackPoint returns exactly that peak. -/
theorem heatmap_argmax (w h : ℕ) (fg skin : Field) (centroid : Point) :
    (∀ prev prev', leftHandmap w h fg skin centroid prev =
      leftHandmap w h fg skin centroid prev') ∧
    (∀ prev (t : TrackedPoint) (px py : ℕ), px < fg.width → py < fg.height →
      (∀ q ∈ positionsRM fg.width fg.height, q ≠ (px, py) →
        (leftHandmap w h fg skin centroid prev).val q.1 q.2 <
          (leftHandmap w h fg skin centroid prev).val px py) →
      (trackPoint (leftHandmap w h fg skin centroid prev) t).pt =
        ⟨(px : ℤ), (py : ℤ)⟩) := by
  constructor
  · intro prev prev'
    rfl
  · intro prev t px py hx hy huniq
    have hwf : (leftHandmap w h fg skin centroid prev).width = fg.width := rfl
    have hhf : (leftHandmap w h fg skin centroid prev).height = fg.height := rfl
    have := minMaxLocMax_unique (leftHandmap w h fg skin centroid prev) px py
      (by rw [hwf]; exact hx) (by rw [hhf]; exact hy)
      (by rw [hwf, hhf]; exact huniq)
    rw [trackPoint, this]

end Heat

namespace Heat

open UPose

/-- A constant-1 evidence field over a 2×1 frame. -/
noncomputable def onesField : Field := ⟨2, 1, fun _ _ => 1⟩

/-- A previous left-hand location at (51, 0). -/
noncomputable def prevDemo : Features2D := ⟨⟨⟨51, 0⟩, 0⟩⟩

theorem leftHandmap_demo_val (x y : ℕ) :
    (leftHandmap 2 1 onesField onesField ⟨0, 0⟩ prevDemo).val x y =
      Real.exp (-(((x : ℝ) + 200) ^ 2 + ((y : ℝ) + 200) ^ 2) / 40000) := by
  have ht : Int.tdiv (100 * (-1 + -3)) 2 = -200 := by decide
  simp only [leftHandmap, fieldMul, onesField, generateDeltaMap, ht]
  norm_num

theorem specCombined_demo_val (x y : ℕ) :
    (specCombinedHandmap 2 1 onesField onesField ⟨0, 0⟩ prevDemo).val x y =
      Real.exp (-(((x : ℝ) + 200) ^ 2 + ((y : ℝ) + 200) ^ 2) / 40000) *
        Real.exp (-(((x : ℝ) - 51) ^ 2 + (y : ℝ) ^ 2) / 10000) := by
  have ht : Int.tdiv (100 * (-1 + -3)) 2 = -200 := by decide
  have ht2 : Int.tdiv (50 * (1 + -1)) 2 = 0 := by decide
  simp only [specCombinedHandmap, fieldMul, onesField, generateDeltaMap, ht, ht2, prevDemo]
  norm_num

end Heat

namespace Heat

open UPose

theorem leftHandmap_demo_lt :
    (leftHandmap 2 1 onesField onesField ⟨0, 0⟩ prevDemo).val 1 0 <
      (leftHandmap 2 1 onesField onesField ⟨0, 0⟩ prevDemo).val 0 0 := by
  rw [leftHandmap_demo_val, leftHandmap_demo_val, Real.exp_lt_exp]
  norm_num

theorem leftHandmap_demo_uniq :
    ∀ q ∈ positionsRM onesField.width onesField.height, q ≠ ((0 : ℕ), (0 : ℕ)) →
      (leftHandmap 2 1 onesField onesField ⟨0, 0⟩ prevDemo).val q.1 q.2 <
        (leftHandmap 2 1 onesField onesField ⟨0, 0⟩ prevDemo).val 0 0 := by
  intro q hq hne
  have hpos : positionsRM onesField.width onesField.height =
      [((0 : ℕ), (0 : ℕ)), (1, 0)] := by decide
  rw [hpos] at hq
  rcases List.mem_cons.mp hq with rfl | hq'
  · exact absurd rfl hne
  · rcases List.mem_cons.mp hq' with rfl | hq''
    · exact leftHandmap_demo_lt
    · cases hq''

/-- C9 counterexample: at the concrete 2×1 frame with constant evidence, centroid
    (0,0) and previous left hand at (51,0), the tracker returns (0,0), but the
    specification's combined field (motion prior included) is strictly larger at
    (1,0) — so the returned location is not the argmax of the combined field. -/
theorem heatmap_not_combined_counterexample :
    (trackPoint (leftHandmap 2 1 onesField onesField ⟨0, 0⟩ prevDemo) ⟨⟨0, 0⟩, 0⟩).pt =
      ⟨0, 0⟩ ∧
    (specCombinedHandmap 2 1 onesField onesField ⟨0, 0⟩ prevDemo).val 0 0 <
      (specCombinedHandmap 2 1 onesField onesField ⟨0, 0⟩ prevDemo).val 1 0 := by
  constructor
  · have h := minMaxLocMax_unique (leftHandmap 2 1 onesField onesField ⟨0, 0⟩ prevDemo)
      0 0 (by decide) (by decide) leftHandmap_demo_uniq
    rw [trackPoint, h]
    rfl
  · rw [specCombined_demo_val, specCombined_demo_val, ← Real.exp_add, ← Real.exp_add,
      Real.exp_lt_exp]
    norm_num

/-- Witness for C9's amended theorem: the demo field has its unique strict peak at
    (0, 0) and trackPoint returns exactly that location. -/
theorem heatmap_argmax_witness :
    (trackPoint (leftHandmap 2 1 onesField onesField ⟨0, 0⟩ prevDemo) ⟨⟨1, 1⟩, 0⟩).pt =
      ⟨0, 0⟩ :=
  (heatmap_argmax 2 1 onesField onesField ⟨0, 0⟩).2 prevDemo ⟨⟨1, 1⟩, 0⟩ 0 0
    (by decide) (by decide) leftHandmap_demo_uniq

end Heat

namespace UPose

/-- The sleeve scan is the selectMin scan with a defaulted initial index. -/
theorem scanMinIdx_eq_selectMinGo (ds : List ℤ) :
    ∀ (i : ℕ) (m : ℤ) (oj : Option ℕ) (j0 : ℕ),
      scanMinIdx ds i (m, oj.getD j0) =
        ((selectMinGo ds i (m, oj)).1, (selectMinGo ds i (m, oj)).2.getD j0) := by
  induction ds with
  | nil => intro i m oj j0; rfl
  | cons d ds ih =>
    intro i m oj j0
    simp only [scanMinIdx, selectMinGo]
    by_cases h : d < m
    · rw [if_pos h, if_pos h]
      exact ih (i + 1) d (some i) j0
    · rw [if_neg h, if_neg h]
      exact ih (i + 1) m oj j0

/-- The sleeve scan lands on the first index attaining the minimal truncated
    distance, provided that distance is below the 100000 sentinel. -/
theorem scanMinIdx_first_argmin (ds : List ℤ) (j : ℕ) (hj : j < ds.length)
    (hsent : ds.getD j 0 < 100000)
    (hmin : ∀ l, l < ds.length → ds.getD j 0 ≤ ds.getD l 0)
    (hfirst : ∀ l, l < j → ds.getD j 0 < ds.getD l 0) :
    scanMinIdx ds 0 (100000, 0) = (ds.getD j 0, j) := by
  have hb := scanMinIdx_eq_selectMinGo ds 0 100000 none 0
  have hsel := selectMin_eq_some ds 100000 j hj hsent hmin hfirst
  rw [selectMin] at hsel
  rw [show ((none : Option ℕ).getD 0) = 0 from rfl] at hb
  rw [hb, hsel.1, hsel.2]
  rfl

/-- Following the words of the specification: the contour point farthest (in
    Euclidean distance) from the shoulder, the first such point on ties. Compared
    against the source's sleeveNormalize. -/
noncomputable def specFarthestPoint (contour : List Point) (shoulder : Point) : Point :=
  (contour.foldl
    (fun acc p => if cvNorm (shoulder - p) > acc.2 then (p, cvNorm (shoulder - p)) else acc)
    (contour.headD default, cvNorm (shoulder - contour.headD default))).1

/-- C7 amended: whenever a hand role is assigned a candidate region, the stored
    (display) hand location is re-projected to the contour point half the contour
    length (by index, wrapping) past the contour point nearest to the corresponding
    shoulder — not to the farthest point — while the cost-side estimate keeps the
    plain centroid, so the refinement never enters the assignment cost computation. -/
theorem sleeve_refinement :
    (∀ (contour : List Point) (shoulder : Point) (j : ℕ), j < contour.length →
      (contour.map (fun p => cppTrunc (cvNorm (shoulder - p)))).getD j 0 < 100000 →
      (∀ l, l < contour.length →
        (contour.map (fun p => cppTrunc (cvNorm (shoulder - p)))).getD j 0 ≤
          (contour.map (fun p => cppTrunc (cvNorm (shoulder - p)))).getD l 0) →
      (∀ l, l < j →
        (contour.map (fun p => cppTrunc (cvNorm (shoulder - p)))).getD j 0 <
          (contour.map (fun p => cppTrunc (cvNorm (shoulder - p)))).getD l 0) →
      sleeveNormalize contour shoulder =
        contour.getD ((j + contour.length / 2) % contour.length) default) ∧
    (∀ (contours : List (List Point)) (rows cols : ℤ) (s : TrackState) (i : ℕ),
      3 ≤ contours.length → leftIdx contours rows cols s = some i →
      (track2DFeatures contours rows cols s).last2D.leftHand =
        sleeveNormalize (contours.getD i [])
          (track2DFeatures contours rows cols s).last2D.leftShoulder ∧
      (track2DFeatures contours rows cols s).lastu2D.leftHand =
        ((extractCandidates contours).getD i default).2) ∧
    (∀ (contours : List (List Point)) (rows cols : ℤ) (s : TrackState) (i : ℕ),
      3 ≤ contours.length → rightIdx contours rows cols s = some i →
      (track2DFeatures contours rows cols s).last2D.rightHand =
        sleeveNormalize (contours.getD i [])
          (track2DFeatures contours rows cols s).last2D.rightShoulder ∧
      (track2DFeatures contours rows cols s).lastu2D.rightHand =
        ((extractCandidates contours).getD i default).2) := by
  refine ⟨?_, ?_, ?_⟩
  · intro contour shoulder j hj hsent hmin hfirst
    have hlen : (contour.map (fun p => cppTrunc (cvNorm (shoulder - p)))).length =
        contour.length := List.length_map _ _
    have hscan := scanMinIdx_first_argmin
      (contour.map (fun p => cppTrunc (cvNorm (shoulder - p)))) j
      (by rw [hlen]; exact hj) hsent
      (fun l hl => hmin l (by rwa [hlen] at hl)) hfirst
    simp only [sleeveNormalize]
    rw [hscan]
  · intro contours rows cols s i h3 hL
    exact ⟨track_leftHand_some contours rows cols s h3 i hL,
      track_leftU_some contours rows cols s h3 i hL⟩
  · intro contours rows cols s i h3 hR
    exact ⟨track_rightHand_some contours rows cols s h3 i hR,
      track_rightU_some contours rows cols s h3 i hR⟩

end UPose

namespace UPose

/-- Truncated cost evaluation from integer bounds on the squared distance. -/
theorem cppTrunc_cost_eval_bounds (p : Point) (bias a : ℤ) (ha : 0 ≤ a)
    (hlo : a ^ 2 ≤ p.x ^ 2 + p.y ^ 2) (hhi : p.x ^ 2 + p.y ^ 2 < (a + 1) ^ 2)
    (hnn : 0 ≤ a + bias) :
    cppTrunc (cvNorm p + (bias : ℝ)) = a + bias := by
  have hS : (0 : ℝ) ≤ (p.x : ℝ) ^ 2 + (p.y : ℝ) ^ 2 := by positivity
  have hlo' : ((a : ℝ)) ≤ cvNorm p := by
    rw [cvNorm, show ((a : ℝ)) = Real.sqrt ((a : ℝ) ^ 2) from
      (Real.sqrt_sq (by exact_mod_cast ha)).symm]
    apply Real.sqrt_le_sqrt
    exact_mod_cast hlo
  have hhi' : cvNorm p < (a : ℝ) + 1 := by
    rw [cvNorm, show ((a : ℝ) + 1) = Real.sqrt (((a : ℝ) + 1) ^ 2) from
      (Real.sqrt_sq (by positivity)).symm]
    apply Real.sqrt_lt_sqrt hS
    exact_mod_cast hhi
  have hnn' : (0 : ℝ) ≤ cvNorm p + (bias : ℝ) := by
    have : (0 : ℝ) ≤ (a : ℝ) + (bias : ℝ) := by exact_mod_cast hnn
    linarith
  rw [cppTrunc, if_pos hnn', Int.floor_eq_iff]
  constructor
  · push_cast
    linarith
  · push_cast
    linarith

/-- Truncated plain distance (no bias) from integer bounds. -/
theorem cppTrunc_cvNorm_bounds (p : Point) (a : ℤ) (ha : 0 ≤ a)
    (hlo : a ^ 2 ≤ p.x ^ 2 + p.y ^ 2) (hhi : p.x ^ 2 + p.y ^ 2 < (a + 1) ^ 2) :
    cppTrunc (cvNorm p) = a := by
  have := cppTrunc_cost_eval_bounds p 0 a ha hlo hhi (by omega)
  simpa using this

theorem cvNorm_zero_point : cvNorm ⟨0, 0⟩ = 0 := by
  rw [cvNorm]
  norm_num

/-- Truncated cost at zero distance: the bias alone, any sign. -/
theorem cppTrunc_zero_add (bias : ℤ) : cppTrunc (cvNorm ⟨0, 0⟩ + (bias : ℝ)) = bias := by
  rw [cvNorm_zero_point, zero_add, cppTrunc]
  split
  · exact Int.floor_intCast bias
  · exact Int.ceil_intCast bias

/-- A tracking state whose face estimate sits at (50, 50) and whose unnormalized
    hand estimates sit exactly on the centroids of the demo7 hand regions. -/
def demo7State : TrackState :=
  { last2D := { face := ⟨50, 50⟩, neck := ⟨0, 0⟩, leftShoulder := ⟨0, 0⟩,
                rightShoulder := ⟨0, 0⟩, leftHand := ⟨0, 0⟩, rightHand := ⟨0, 0⟩ },
    lastu2D := { face := ⟨0, 0⟩, neck := ⟨0, 0⟩, leftShoulder := ⟨0, 0⟩,
                 rightShoulder := ⟨0, 0⟩, leftHand := ⟨2, 53⟩, rightHand := ⟨100, 50⟩ } }

/-- Three contours: a 1-pixel face blob, a 4-point left-hand polygon, and a 1-pixel
    right-hand blob, on a 100×100 frame. -/
def demo7Contours : List (List Point) :=
  [[⟨50, 50⟩], [⟨4, 52⟩, ⟨0, 57⟩, ⟨0, 48⟩, ⟨3, 52⟩], [⟨99, 50⟩]]

theorem extractCandidates_demo7 :
    extractCandidates demo7Contours =
      [(⟨50, 50, 1, 1⟩, ⟨50, 50⟩), (⟨0, 48, 5, 10⟩, ⟨2, 53⟩), (⟨99, 50, 1, 1⟩, ⟨100, 50⟩)] := by
  decide

theorem faceCosts_demo7 : faceCosts demo7State demo7Contours = [49, 96, 99] := by
  rw [faceCosts, extractCandidates_demo7]
  simp only [List.map_cons, List.map_nil]
  rw [faceCost_cast, faceCost_cast, faceCost_cast]
  show [cppTrunc (cvNorm (⟨0, 0⟩ : Point) + ((49 : ℤ) : ℝ)),
        cppTrunc (cvNorm (⟨48, -3⟩ : Point) + ((48 : ℤ) : ℝ)),
        cppTrunc (cvNorm (⟨-50, 0⟩ : Point) + ((49 : ℤ) : ℝ))] = [49, 96, 99]
  rw [cppTrunc_zero_add,
    cppTrunc_cost_eval_bounds ⟨48, -3⟩ 48 48 (by norm_num) (by norm_num) (by norm_num)
      (by norm_num),
    cppTrunc_cost_eval_bounds ⟨-50, 0⟩ 49 50 (by norm_num) (by norm_num) (by norm_num)
      (by norm_num)]
  norm_num

theorem leftCosts_demo7 : leftCosts demo7State demo7Contours = [97, -3, 197] := by
  rw [leftCosts, extractCandidates_demo7]
  simp only [List.map_cons, List.map_nil]
  rw [leftCost_cast, leftCost_cast, leftCost_cast]
  show [cppTrunc (cvNorm (⟨-48, 3⟩ : Point) + ((49 : ℤ) : ℝ)),
        cppTrunc (cvNorm (⟨0, 0⟩ : Point) + ((-3 : ℤ) : ℝ)),
        cppTrunc (cvNorm (⟨-98, 3⟩ : Point) + ((99 : ℤ) : ℝ))] = [97, -3, 197]
  rw [cppTrunc_zero_add,
    cppTrunc_cost_eval_bounds ⟨-48, 3⟩ 49 48 (by norm_num) (by norm_num) (by norm_num)
      (by norm_num),
    cppTrunc_cost_eval_bounds ⟨-98, 3⟩ 99 98 (by norm_num) (by norm_num) (by norm_num)
      (by norm_num)]
  norm_num

theorem rightCosts_demo7 : rightCosts demo7State 100 demo7Contours = [99, 191, -1] := by
  rw [rightCosts, extractCandidates_demo7]
  simp only [List.map_cons, List.map_nil]
  rw [rightCost_cast, rightCost_cast, rightCost_cast]
  show [cppTrunc (cvNorm (⟨50, 0⟩ : Point) + ((49 : ℤ) : ℝ)),
        cppTrunc (cvNorm (⟨98, -3⟩ : Point) + ((93 : ℤ) : ℝ)),
        cppTrunc (cvNorm (⟨0, 0⟩ : Point) + ((-1 : ℤ) : ℝ))] = [99, 191, -1]
  rw [cppTrunc_zero_add,
    cppTrunc_cost_eval_bounds ⟨50, 0⟩ 49 50 (by norm_num) (by norm_num) (by norm_num)
      (by norm_num),
    cppTrunc_cost_eval_bounds ⟨98, -3⟩ 93 98 (by norm_num) (by norm_num) (by norm_num)
      (by norm_num)]
  norm_num

theorem faceIdx_demo7 : faceIdx demo7Contours 100 100 demo7State = some 0 := by
  rw [faceIdx, faceCosts_demo7]
  decide

theorem leftIdx_demo7 : leftIdx demo7Contours 100 100 demo7State = some 1 := by
  rw [leftIdx, leftCosts_demo7]
  decide

theorem rightIdx_demo7 : rightIdx demo7Contours 100 100 demo7State = some 2 := by
  rw [rightIdx, rightCosts_demo7]
  decide

end UPose

namespace UPose

theorem cvNorm_sq_eval (p : Point) (a : ℤ) (ha : 0 ≤ a)
    (hsq : p.x ^ 2 + p.y ^ 2 = a ^ 2) : cvNorm p = (a : ℝ) := by
  rw [cvNorm, show ((p.x : ℝ) ^ 2 + (p.y : ℝ) ^ 2) = ((a : ℝ)) ^ 2 by
    exact_mod_cast congrArg (fun z : ℤ => (z : ℝ)) hsq]
  exact Real.sqrt_sq (by exact_mod_cast ha)

theorem leftShoulder_demo7 :
    (track2DFeatures demo7Contours 100 100 demo7State).last2D.leftShoulder = ⟨50, 52⟩ := by
  rw [track_leftShoulder_some demo7Contours 100 100 demo7State (by decide) 0 faceIdx_demo7,
    extractCandidates_demo7]
  decide

theorem sleeveDists_demo7 :
    ([⟨4, 52⟩, ⟨0, 57⟩, ⟨0, 48⟩, ⟨3, 52⟩] : List Point).map
      (fun p => cppTrunc (cvNorm ((⟨50, 52⟩ : Point) - p))) = [46, 50, 50, 47] := by
  simp only [List.map_cons, List.map_nil, Point.sub_def]
  show [cppTrunc (cvNorm (⟨46, 0⟩ : Point)), cppTrunc (cvNorm (⟨50, -5⟩ : Point)),
        cppTrunc (cvNorm (⟨50, 4⟩ : Point)), cppTrunc (cvNorm (⟨47, 0⟩ : Point))] =
      [46, 50, 50, 47]
  rw [cppTrunc_cvNorm_bounds ⟨46, 0⟩ 46 (by norm_num) (by norm_num) (by norm_num),
    cppTrunc_cvNorm_bounds ⟨50, -5⟩ 50 (by norm_num) (by norm_num) (by norm_num),
    cppTrunc_cvNorm_bounds ⟨50, 4⟩ 50 (by norm_num) (by norm_num) (by norm_num),
    cppTrunc_cvNorm_bounds ⟨47, 0⟩ 47 (by norm_num) (by norm_num) (by norm_num)]

theorem sleeveNormalize_demo7 :
    sleeveNormalize [⟨4, 52⟩, ⟨0, 57⟩, ⟨0, 48⟩, ⟨3, 52⟩] ⟨50, 52⟩ = ⟨0, 48⟩ := by
  simp only [sleeveNormalize]
  rw [sleeveDists_demo7]
  decide

theorem specFarthest_demo7 :
    specFarthestPoint [⟨4, 52⟩, ⟨0, 57⟩, ⟨0, 48⟩, ⟨3, 52⟩] ⟨50, 52⟩ = ⟨0, 57⟩ := by
  have e0 : cvNorm ((⟨50, 52⟩ : Point) - ⟨4, 52⟩) = (46 : ℝ) :=
    cvNorm_sq_eval ⟨46, 0⟩ 46 (by norm_num) (by norm_num)
  have e1 : cvNorm ((⟨50, 52⟩ : Point) - ⟨0, 57⟩) = Real.sqrt 2525 := by
    rw [cvNorm]
    norm_num
  have e2 : cvNorm ((⟨50, 52⟩ : Point) - ⟨0, 48⟩) = Real.sqrt 2516 := by
    rw [cvNorm]
    norm_num
  have e3 : cvNorm ((⟨50, 52⟩ : Point) - ⟨3, 52⟩) = (47 : ℝ) :=
    cvNorm_sq_eval ⟨47, 0⟩ 47 (by norm_num) (by norm_num)
  have s1 : (46 : ℝ) < Real.sqrt 2525 := by
    rw [show (46 : ℝ) = Real.sqrt (46 ^ 2) from (Real.sqrt_sq (by norm_num)).symm]
    exact Real.sqrt_lt_sqrt (by positivity) (by norm_num)
  have s2 : ¬ ((Real.sqrt 2525 : ℝ) < Real.sqrt 2516) :=
    not_lt.mpr (Real.sqrt_le_sqrt (by norm_num))
  have s3 : ¬ ((Real.sqrt 2525 : ℝ) < 47) := by
    refine not_lt.mpr ?_
    rw [show (47 : ℝ) = Real.sqrt (47 ^ 2) from (Real.sqrt_sq (by norm_num)).symm]
    exact Real.sqrt_le_sqrt (by norm_num)
  rw [specFarthestPoint]
  simp only [List.foldl_cons, List.foldl_nil, List.headD_cons]
  rw [e0, e1, e2, e3]
  rw [if_neg (lt_irrefl (46 : ℝ)), if_pos s1, if_neg s2, if_neg s3]

/-- C7 counterexample: at the demo7 frame the left hand is assigned to the 4-point
    polygon region; the stored hand becomes (0, 48), the point half the contour away
    (by index) from the contour point nearest the shoulder, whereas the contour
    point farthest from the shoulder is (0, 57). -/
theorem sleeve_not_farthest_counterexample :
    leftIdx demo7Contours 100 100 demo7State = some 1 ∧
    (track2DFeatures demo7Contours 100 100 demo7State).last2D.leftHand = ⟨0, 48⟩ ∧
    specFarthestPoint (demo7Contours.getD 1 [])
      ((track2DFeatures demo7Contours 100 100 demo7State).last2D.leftShoulder) = ⟨0, 57⟩ ∧
    ((⟨0, 48⟩ : Point) ≠ ⟨0, 57⟩) := by
  refine ⟨leftIdx_demo7, ?_, ?_, by decide⟩
  · rw [track_leftHand_some demo7Contours 100 100 demo7State (by decide) 1 leftIdx_demo7,
      leftShoulder_demo7]
    exact sleeveNormalize_demo7
  · rw [leftShoulder_demo7]
    exact specFarthest_demo7

theorem sleeveDists_demoW :
    ([⟨0, 0⟩, ⟨3, 0⟩, ⟨10, 0⟩, ⟨3, 4⟩] : List Point).map
      (fun p => cppTrunc (cvNorm ((⟨0, 0⟩ : Point) - p))) = [0, 3, 10, 5] := by
  simp only [List.map_cons, List.map_nil, Point.sub_def]
  show [cppTrunc (cvNorm (⟨0, 0⟩ : Point)), cppTrunc (cvNorm (⟨-3, 0⟩ : Point)),
        cppTrunc (cvNorm (⟨-10, 0⟩ : Point)), cppTrunc (cvNorm (⟨-3, -4⟩ : Point))] =
      [0, 3, 10, 5]
  rw [cppTrunc_cvNorm_bounds ⟨0, 0⟩ 0 (by norm_num) (by norm_num) (by norm_num),
    cppTrunc_cvNorm_bounds ⟨-3, 0⟩ 3 (by norm_num) (by norm_num) (by norm_num),
    cppTrunc_cvNorm_bounds ⟨-10, 0⟩ 10 (by norm_num) (by norm_num) (by norm_num),
    cppTrunc_cvNorm_bounds ⟨-3, -4⟩ 5 (by norm_num) (by norm_num) (by norm_num)]

/-- Witness for the amended C7: on a 4-point contour whose nearest point to the
    shoulder is index 0, the hand is re-projected to the index half the contour
    length further along. -/
theorem sleeve_refinement_witness :
    sleeveNormalize [⟨0, 0⟩, ⟨3, 0⟩, ⟨10, 0⟩, ⟨3, 4⟩] ⟨0, 0⟩ =
      ([⟨0, 0⟩, ⟨3, 0⟩, ⟨10, 0⟩, ⟨3, 4⟩] : List Point).getD
        ((0 + ([⟨0, 0⟩, ⟨3, 0⟩, ⟨10, 0⟩, ⟨3, 4⟩] : List Point).length / 2) %
          ([⟨0, 0⟩, ⟨3, 0⟩, ⟨10, 0⟩, ⟨3, 4⟩] : List Point).length) default :=
  sleeve_refinement.1 [⟨0, 0⟩, ⟨3, 0⟩, ⟨10, 0⟩, ⟨3, 4⟩] ⟨0, 0⟩ 0 (by decide)
    (by rw [sleeveDists_demoW]; decide)
    (by
      intro l hl
      rw [sleeveDists_demoW]
      simp only [List.length_cons, List.length_nil] at hl
      interval_cases l <;> decide)
    (fun l hl => absurd hl (Nat.not_lt_zero l))

end UPose

namespace UPose

/-- C8 counterexample: a zero-area region — a single-point contour, as findContours
    yields for an isolated pixel — is neither filtered out nor treated as "no
    candidate": the extractor keeps it and computes its centroid. -/
theorem degenerate_region_kept_counterexample :
    (extractCandidates [[⟨5, 7⟩]]).length = 1 ∧
    extractCandidates [[⟨5, 7⟩]] = [(⟨5, 7, 1, 1⟩, ⟨6, 8⟩)] :=
  ⟨by decide, by decide⟩

end UPose

namespace Heat

/-- C8 amended: no zero-area filter exists — the extractor keeps every region and
    momentCentroid divides by m00 unguarded — yet the moment denominator is never
    zero in the pipeline: momentCentroid is applied to the sigmoid foreground
    field, whose every pixel value is strictly positive, so m00 is strictly
    positive on every non-empty frame. -/
theorem moment_denominator_never_zero (gray : Field) (hw : 0 < gray.width)
    (hh : 0 < gray.height) :
    (∀ x y : ℕ, 0 < (backgroundSubtract gray).val x y) ∧
    0 < m00 (backgroundSubtract gray) ∧
    (∀ contours : List (List UPose.Point),
      (UPose.extractCandidates contours).length = contours.length) := by
  have hpos : ∀ x y : ℕ, 0 < (backgroundSubtract gray).val x y := by
    intro x y
    simp only [backgroundSubtract]
    positivity
  refine ⟨hpos, ?_, ?_⟩
  · rw [m00]
    apply List.sum_pos
    · intro a ha
      obtain ⟨p, hp, rfl⟩ := List.mem_map.mp ha
      exact hpos p.1 p.2
    · intro hc
      rw [List.map_eq_nil_iff] at hc
      have hmem : ((0, 0) : ℕ × ℕ) ∈
          positionsRM (backgroundSubtract gray).width (backgroundSubtract gray).height :=
        (mem_positionsRM _ _ 0 0).mpr ⟨hw, hh⟩
      rw [hc] at hmem
      cases hmem
  · intro contours
    simp [UPose.extractCandidates]

/-- Witness for the amended C8 at a concrete 1×1 gray frame identical to the
    background (g = 0): the moment denominator is still strictly positive. -/
theorem moment_denominator_never_zero_witness :
    0 < m00 (backgroundSubtract ⟨1, 1, fun _ _ => 0⟩) :=
  (moment_denominator_never_zero ⟨1, 1, fun _ _ => 0⟩ (by decide) (by decide)).2.1

end Heat
